import Mathlib

/-!
# Verification of the knowledge_base_API job-processing service

A shallow embedding, in Lean 4, of the parts of the `knowledge_base_API`
repository that the specification's testable claims are about:

* `PostgresJobRepository.claim_job` (src/app/worker/repository_postgres.py)
* the rate-limit check and middleware (src/app/core/auth.py)
* `TextChunker.chunk_text` and `_find_break_point` (src/app/utils/text_chunker.py)
* `SnowflakeID.next_id` (src/app/core/snowflake.py)
* `JobWorker.process_job` and `DefaultWebhookNotifier.send_notification`
  (src/app/worker/job_worker.py, src/app/worker/notifier.py)
* `OpenAIService.analyze_subjects` (src/app/services/openai_service.py)
* the `/api/v1/status/{job_id}` and `/api/v1/results/{job_id}` endpoint handlers
  (src/app/api/endpoints.py)
* `HybridCache.get` (src/app/core/hybrid_cache.py)

Python strings are modelled as `List Char` or `String`, machine integers as
`Nat`/`Int` (Python integers are unbounded), fallible calls as `Option`/`Except`,
and the stateful stores (PostgreSQL rows, Redis keys and sorted sets) as
explicit functional states threaded through each operation.
-/

namespace KB

/-! ## PostgresJobRepository.claim_job (src/app/worker/repository_postgres.py)

The jobs table is modelled as a partial map from job id to a row.  Only the
columns that `claim_job` reads or writes are carried: `owner_email`, `status`,
`expires_at` (the lock expiry column the UPDATE sets) and `updated_at`.
-/

structure JobRow where
  owner_email : String
  status : String
  expires_at : Option Int
  updated_at : Int
  deriving DecidableEq, Repr

/-- The jobs table: job id to row. -/
def JobTable := String → Option JobRow

/-- Outcome of the database transaction inside `claim_job`'s `try` block.
`ok` means every statement succeeded and the transaction committed; the other
constructors stand for an exception raised at some point of the transaction
(connection failure, bad query, failure at commit time).  Because the
`async with conn.transaction()` context manager rolls back on any exception,
a failed transaction leaves the table unchanged. -/
inductive DbOutcome where
  | ok
  | connectError
  | queryError
  | commitError
  deriving DecidableEq, Repr

/-- The `SELECT status FROM jobs WHERE id = $1 [AND owner_email = $2] FOR UPDATE`
of `claim_job`: `fetchval` returns the selected status, or `None` when no row
matches the filter. -/
def selectStatusForUpdate (db : JobTable) (job_id : String)
    (owner : Option String) : Option String :=
  match db job_id with
  | none => none
  | some row =>
    match owner with
    | none => some row.status
    | some o => if row.owner_email = o then some row.status else none

/-- `PostgresJobRepository.claim_job(job_id, owner, ttl_seconds)`
(src/app/worker/repository_postgres.py lines 397-455).

Inside a transaction it selects the row's status `FOR UPDATE`; if the status is
not `'pending'` it returns `False`; otherwise it updates the row to
`status='processing'`, `updated_at=NOW()`, `expires_at=now+ttl_seconds` and
returns `True`.  The whole body is wrapped in `try/except` returning `False`
on any exception, with the transaction rolled back. -/
def claim_job (db : JobTable) (job_id : String) (owner : Option String)
    (ttl_seconds : Int) (now : Int) (outcome : DbOutcome) :
    Bool × JobTable :=
  match outcome with
  | .ok =>
    match selectStatusForUpdate db job_id owner with
    | some s =>
      if s = "pending" then
        let lock_expires_at := now + ttl_seconds
        (true, fun j =>
          if j = job_id then
            (db job_id).map fun row =>
              { row with
                status := "processing"
                updated_at := now
                expires_at := some lock_expires_at }
          else db j)
      else (false, db)
    | none => (false, db)
  | _ => (false, db)

end KB

namespace KB

/-- The `SELECT ... FOR UPDATE` yields `'pending'` exactly when the row
selected by the id and the optional owner filter exists with status
`'pending'`. -/
theorem selectStatus_pending_iff (db : JobTable) (job_id : String)
    (owner : Option String) :
    selectStatusForUpdate db job_id owner = some "pending" ↔
      ∃ row, db job_id = some row ∧
        (owner = none ∨ owner = some row.owner_email) ∧
        row.status = "pending" := by
  unfold selectStatusForUpdate
  cases hdb : db job_id with
  | none => simp
  | some row =>
    cases owner with
    | none => simp [eq_comm]
    | some o =>
      by_cases ho : row.owner_email = o
      · subst ho
        simp [eq_comm]
      · simp only [if_neg ho]
        constructor
        · intro h; cases h
        · rintro ⟨row', hrow', h1 | h1, _⟩
          · cases h1
          · cases hrow'
            cases h1
            exact absurd rfl ho

/-- **C1.** For every job id and owner filter, `claim_job` (with a committing
transaction) is an atomic compare-and-set: it returns `true` iff the row
selected by the id and the optional owner filter exists and its status is
`'pending'`; on success the row's status becomes `'processing'` with the lock
expiry column set to `now + ttl_seconds` (and `updated_at` refreshed), every
other row untouched; otherwise it returns `false` and the table is unchanged. -/
theorem claim_job_cas (db : JobTable) (job_id : String) (owner : Option String)
    (ttl : Int) (now : Int) :
    ((claim_job db job_id owner ttl now .ok).1 = true ↔
      ∃ row, db job_id = some row ∧
        (owner = none ∨ owner = some row.owner_email) ∧
        row.status = "pending")
    ∧ (∀ row, db job_id = some row →
        (owner = none ∨ owner = some row.owner_email) →
        row.status = "pending" →
        (claim_job db job_id owner ttl now .ok).2 job_id =
          some { row with
                  status := "processing"
                  updated_at := now
                  expires_at := some (now + ttl) } ∧
        ∀ j, j ≠ job_id →
          (claim_job db job_id owner ttl now .ok).2 j = db j)
    ∧ ((claim_job db job_id owner ttl now .ok).1 = false →
        (claim_job db job_id owner ttl now .ok).2 = db) := by
  by_cases hsel : selectStatusForUpdate db job_id owner = some "pending"
  · have hres : claim_job db job_id owner ttl now .ok =
        (true, fun j =>
          if j = job_id then
            (db job_id).map fun row =>
              { row with
                status := "processing"
                updated_at := now
                expires_at := some (now + ttl) }
          else db j) := by
      unfold claim_job
      rw [hsel]
      rfl
    refine ⟨?_, ?_, ?_⟩
    · rw [hres]
      simpa using (selectStatus_pending_iff db job_id owner).mp hsel
    · intro row hdb _ _
      rw [hres]
      exact ⟨by simp [hdb], fun j hj => by simp [hj]⟩
    · intro h
      rw [hres] at h
      simp at h
  · have hres : claim_job db job_id owner ttl now .ok = (false, db) := by
      unfold claim_job
      cases h : selectStatusForUpdate db job_id owner with
      | none => rfl
      | some s =>
        have hs : ¬ s = "pending" := fun hc => hsel (by rw [h, hc])
        simp [hs]
    refine ⟨?_, ?_, ?_⟩
    · constructor
      · intro h
        rw [hres] at h
        simp at h
      · intro hex
        exact absurd ((selectStatus_pending_iff db job_id owner).mpr hex) hsel
    · intro row hdb howner hstat
      exact absurd ((selectStatus_pending_iff db job_id owner).mpr
        ⟨row, hdb, howner, hstat⟩) hsel
    · intro _
      rw [hres]

/-- Concrete check of `claim_job_cas`: a pending job owned by `"alice"`,
claimed with matching owner, is claimed and moved to `processing` with the lock
expiry at `now + ttl`. -/
theorem claim_job_cas_witness :
    (fun j => if j = "1" then
        some (⟨"alice", "pending", none, 0⟩ : JobRow) else none) "1" =
      some (⟨"alice", "pending", none, 0⟩ : JobRow) ∧
    ((claim_job
        (fun j => if j = "1" then some ⟨"alice", "pending", none, 0⟩ else none)
        "1" (some "alice") 300 1000 .ok).2 "1" =
      some ⟨"alice", "processing", some 1300, 1000⟩ ∧
     ∀ j, j ≠ "1" →
      (claim_job
        (fun j => if j = "1" then some ⟨"alice", "pending", none, 0⟩ else none)
        "1" (some "alice") 300 1000 .ok).2 j =
      (fun j => if j = "1" then some ⟨"alice", "pending", none, 0⟩ else none) j) :=
  ⟨by simp,
   (claim_job_cas
      (fun j => if j = "1" then some ⟨"alice", "pending", none, 0⟩ else none)
      "1" (some "alice") 300 1000).2.1
      ⟨"alice", "pending", none, 0⟩ (by simp) (Or.inr rfl) rfl⟩

/-- **C10.** `claim_job` never raises: every exceptional outcome of the
transaction is caught and turned into `(false, unchanged table)` — the rollback
of the enclosing transaction means no partially applied claim is ever
observable — and a `false` return is also what a committed transaction produces
when the selected status is not `'pending'`, so `false` does not distinguish
"job was not pending" from "claim attempt failed". -/
theorem claim_job_never_raises (db : JobTable) (job_id : String)
    (owner : Option String) (ttl : Int) (now : Int) :
    (∀ outcome, outcome ≠ DbOutcome.ok →
      claim_job db job_id owner ttl now outcome = (false, db))
    ∧ (selectStatusForUpdate db job_id owner ≠ some "pending" →
        claim_job db job_id owner ttl now .ok = (false, db)) := by
  constructor
  · intro outcome h
    cases outcome with
    | ok => exact absurd rfl h
    | connectError => rfl
    | queryError => rfl
    | commitError => rfl
  · intro h
    unfold claim_job
    cases hsel : selectStatusForUpdate db job_id owner with
    | none => rfl
    | some s =>
      rw [hsel] at h
      have hs : ¬ s = "pending" := by
        intro hc; exact h (by rw [hc])
      simp [hs]

/-- Concrete check of `claim_job_never_raises`: on a connection error the claim
of an existing pending job returns `false` and leaves the table unchanged; the
same `false` is returned by a committed transaction on a non-pending job. -/
theorem claim_job_never_raises_witness :
    claim_job
      (fun j => if j = "1" then some ⟨"alice", "pending", none, 0⟩ else none)
      "1" none 300 1000 .connectError =
      (false, fun j => if j = "1" then some ⟨"alice", "pending", none, 0⟩ else none)
    ∧ claim_job
      (fun j => if j = "2" then some ⟨"alice", "completed", none, 0⟩ else none)
      "2" none 300 1000 .ok =
      (false, fun j => if j = "2" then some ⟨"alice", "completed", none, 0⟩ else none) :=
  ⟨(claim_job_never_raises
      (fun j => if j = "1" then some ⟨"alice", "pending", none, 0⟩ else none)
      "1" none 300 1000).1 .connectError (by simp),
   (claim_job_never_raises
      (fun j => if j = "2" then some ⟨"alice", "completed", none, 0⟩ else none)
      "2" none 300 1000).2 (by simp [selectStatusForUpdate])⟩

end KB

namespace KB

/-! ## TextChunker (src/app/utils/text_chunker.py)

`chunk_text` splits a text into windows of `chunk_size` characters with
`chunk_overlap` characters of overlap, searching backward up to 50 characters
from each window boundary for a paragraph break, a newline, or a sentence end.
Texts are `List Char`; Python's `str.rfind` is modelled by `pyRfind`.
-/

/-- Python `search_text.rfind(pattern)`: the greatest index at which `pattern`
occurs as a contiguous substring of `text` (`none` for Python's `-1`). -/
def pyRfind (pattern text : List Char) : Option Nat :=
  ((List.range (text.length + 1)).reverse).find?
    (fun i => pattern.isPrefixOf (text.drop i))

/-- `TextChunker._find_break_point(text, position)` (lines 77-110): search the
window of 50 characters before `position` for, in order, a paragraph break
`"\n\n"`, a newline `"\n"`, a sentence end `". "`; fall back to `position`.
Nat subtraction gives Python's `max(0, position - window_size)`. -/
def find_break_point (text : List Char) (position : Nat) : Nat :=
  let window_size := 50
  let search_start := position - window_size
  let search_text := (text.drop search_start).take (position - search_start)
  match pyRfind ['\n', '\n'] search_text with
  | some i => search_start + i + 2
  | none =>
    match pyRfind ['\n'] search_text with
    | some i => search_start + i + 1
    | none =>
      match pyRfind ['.', ' '] search_text with
      | some i => search_start + i + 2
      | none => position

/-- The `while start < len(text)` loop of `chunk_text` (lines 51-74), with
explicit fuel (the loop makes progress for any configuration with
`chunk_overlap + 50 ≤ chunk_size`, and `text.length` steps of fuel are always
enough, see `chunk_loop_join_drop`).  `start = break_point - overlap`
with Nat subtraction gives Python's clamp of negative `start` to `0`. -/
def chunk_loop (cs ov : Nat) (text : List Char) :
    Nat → Nat → List (List Char)
  | 0, _ => []
  | fuel + 1, start =>
    if start < text.length then
      let e := start + cs
      if text.length ≤ e then
        [text.drop start]
      else
        let b := find_break_point text e
        ((text.drop start).take (b - start)) ::
          chunk_loop cs ov text fuel (b - ov)
    else []

/-- `TextChunker.chunk_text(text)` (lines 34-75) for a chunker configured with
`chunk_size = cs` and `chunk_overlap = ov`: empty text gives `[]`; a text of at
most one window is returned whole; otherwise the window loop runs. -/
def chunk_text (cs ov : Nat) (text : List Char) : List (List Char) :=
  if text = [] then []
  else if text.length ≤ cs then [text]
  else chunk_loop cs ov text text.length 0

/-- The spans `(start, stop)` of the chunks produced by `chunk_loop`: the same
recursion as `chunk_loop`, recording the slice bounds instead of the slice. -/
def chunk_spans (cs ov : Nat) (text : List Char) :
    Nat → Nat → List (Nat × Nat)
  | 0, _ => []
  | fuel + 1, start =>
    if start < text.length then
      let e := start + cs
      if text.length ≤ e then
        [(start, text.length)]
      else
        let b := find_break_point text e
        (start, b) :: chunk_spans cs ov text fuel (b - ov)
    else []

/-- Spans of the chunks of `chunk_text`. -/
def chunk_text_spans (cs ov : Nat) (text : List Char) : List (Nat × Nat) :=
  if text = [] then []
  else if text.length ≤ cs then [(0, text.length)]
  else chunk_spans cs ov text text.length 0

/-- Reassemble chunks by keeping the first whole and removing the leading
`ov` characters of overlap from every later chunk. -/
def dechunk (ov : Nat) : List (List Char) → List Char
  | [] => []
  | c :: rest => c ++ (rest.map (fun x => x.drop ov)).flatten

end KB

namespace KB

/-- A successful `rfind` of a pattern leaves room for the whole pattern:
`i + pattern.length ≤ text.length`. -/
theorem pyRfind_le {pattern text : List Char} {i : Nat}
    (h : pyRfind pattern text = some i) :
    i + pattern.length ≤ text.length := by
  unfold pyRfind at h
  have hpred := List.find?_some h
  have hmem := List.mem_of_find?_eq_some h
  have hi : i < text.length + 1 := by
    have := List.mem_reverse.mp hmem
    exact List.mem_range.mp this
  have hpre : pattern <+: text.drop i := by
    exact List.isPrefixOf_iff_prefix.mp hpred
  have hlen := hpre.length_le
  rw [List.length_drop] at hlen
  omega

/-- The chosen break point always lies in the window `[position - 49,
position]` searched by `_find_break_point`, as long as `position ≥ 50`. -/
theorem find_break_point_bounds (text : List Char) (position : Nat)
    (hpos : 50 ≤ position) :
    position - 49 ≤ find_break_point text position ∧
      find_break_point text position ≤ position := by
  unfold find_break_point
  have hss : position - 50 + 50 = position := by omega
  have hlen : ((text.drop (position - 50)).take (position - (position - 50))).length ≤ 50 := by
    rw [List.length_take]
    omega
  cases h2 : pyRfind ['\n', '\n']
      ((text.drop (position - 50)).take (position - (position - 50))) with
  | some i =>
    have := pyRfind_le h2
    simp only [List.length_cons, List.length_nil] at this
    simp only [h2]
    omega
  | none =>
    simp only [h2]
    cases h1 : pyRfind ['\n']
        ((text.drop (position - 50)).take (position - (position - 50))) with
    | some i =>
      have := pyRfind_le h1
      simp only [List.length_cons, List.length_nil] at this
      simp only [h1]
      omega
    | none =>
      simp only [h1]
      cases h3 : pyRfind ['.', ' ']
          ((text.drop (position - 50)).take (position - (position - 50))) with
      | some i =>
        have := pyRfind_le h3
        simp only [List.length_cons, List.length_nil] at this
        simp only [h3]
        omega
      | none =>
        simp only [h3]
        omega

end KB

namespace KB

/-- Progress and reconstruction invariant of the chunking loop: for a chunker
with `chunk_overlap + 50 ≤ chunk_size`, dropping the leading `ov` characters of
every chunk produced from position `start` and concatenating yields exactly the
text from position `start + ov` on. -/
theorem chunk_loop_join_drop (cs ov : Nat) (text : List Char)
    (hcs : ov + 50 ≤ cs) :
    ∀ fuel start, start < text.length → text.length - start ≤ fuel →
      ((chunk_loop cs ov text fuel start).map (fun c => c.drop ov)).flatten =
        text.drop (start + ov) := by
  intro fuel
  induction fuel with
  | zero =>
    intro start hlt hfuel
    omega
  | succ n ih =>
    intro start hlt hfuel
    rw [chunk_loop]
    rw [if_pos hlt]
    by_cases hend : text.length ≤ start + cs
    · rw [if_pos hend]
      simp [List.drop_drop, Nat.add_comm]
    · rw [if_neg hend]
      simp only [List.map_cons, List.flatten_cons]
      have hposge : 50 ≤ start + cs := by omega
      have hb := find_break_point_bounds text (start + cs) hposge
      set b := find_break_point text (start + cs) with hbdef
      have hb1 : start + ov + 1 ≤ b := by omega
      have hb2 : b ≤ start + cs := hb.2
      have hblt : b - ov < text.length := by omega
      have hbfuel : text.length - (b - ov) ≤ n := by omega
      have hrec := ih (b - ov) hblt hbfuel
      have hov : b - ov + ov = b := by omega
      rw [hrec, hov]
      rw [List.drop_take, List.drop_drop]
      have h2 : b - start - ov = b - (start + ov) := by omega
      rw [h2]
      have h3 : text.drop b = (text.drop (start + ov)).drop (b - (start + ov)) := by
        rw [List.drop_drop]
        congr 1
        omega
      rw [h3, List.take_append_drop]

/-- **C3.** For every text longer than one window (and any chunker
configuration with `chunk_overlap + 50 ≤ chunk_size`, which includes the
default 300/50), the chunker's output round-trips — concatenating the chunks
with each chunk's leading overlap removed reconstructs the text exactly — and
every break point chosen at a window boundary `pos = start + chunk_size` lies
within the 50 characters before that target position. -/
theorem chunk_text_roundtrip (cs ov : Nat) (text : List Char)
    (hcs : ov + 50 ≤ cs) (hlong : cs < text.length) :
    dechunk ov (chunk_text cs ov text) = text ∧
      ∀ pos, cs ≤ pos →
        pos - 50 ≤ find_break_point text pos ∧ find_break_point text pos ≤ pos := by
  constructor
  · have hne : text ≠ [] := by
      intro h
      rw [h] at hlong
      simp at hlong
    have hnot : ¬ text.length ≤ cs := by omega
    unfold chunk_text
    rw [if_neg hne, if_neg hnot]
    obtain ⟨n, hn⟩ : ∃ n, text.length = n + 1 := by
      cases hl : text.length with
      | zero => omega
      | succ k => exact ⟨k, rfl⟩
    have hposge : 50 ≤ 0 + cs := by omega
    have hb := find_break_point_bounds text (0 + cs) hposge
    set b := find_break_point text (0 + cs) with hbdef
    have hstep : chunk_loop cs ov text (n + 1) 0 =
        ((text.drop 0).take (b - 0)) :: chunk_loop cs ov text n (b - ov) := by
      rw [chunk_loop]
      rw [if_pos (by omega : (0:Nat) < text.length)]
      rw [if_neg (by omega : ¬ text.length ≤ 0 + cs)]
    rw [hn, hstep, dechunk]
    have hblt : b - ov < text.length := by omega
    have hbfuel : text.length - (b - ov) ≤ n := by omega
    have hrec := chunk_loop_join_drop cs ov text hcs n (b - ov) hblt hbfuel
    have hov : b - ov + ov = b := by omega
    rw [hrec, hov]
    simp only [List.drop_zero, Nat.sub_zero]
    exact List.take_append_drop b text
  · intro pos hpos
    have h := find_break_point_bounds text pos (by omega)
    omega

end KB

namespace KB

/-- An 87-character example text used by the concrete chunker checks. -/
def exampleText : List Char :=
  ("The first sentence of the running example text.\nA second line here to cross the window." : String).toList

/-- Concrete check of `chunk_text_roundtrip`: a chunker with window 60 and
overlap 10 on an 87-character text reconstructs the text exactly. -/
theorem chunk_text_roundtrip_witness :
    (10 + 50 ≤ 60 ∧ 60 < exampleText.length) ∧
      (dechunk 10 (chunk_text 60 10 exampleText) = exampleText ∧
        ∀ pos, 60 ≤ pos →
          pos - 50 ≤ find_break_point exampleText pos ∧
            find_break_point exampleText pos ≤ pos) :=
  ⟨⟨by decide, by decide⟩,
   chunk_text_roundtrip 60 10 exampleText (by decide) (by decide)⟩

/-- **C9 counterexample.** The claim says every text of length at most one
window yields exactly one chunk equal to the text itself; but `chunk_text`
returns `[]` (no chunks at all) for the empty text, which has length
`0 ≤ chunk_size`. -/
theorem chunk_text_empty_counterexample :
    chunk_text 300 50 ([] : List Char) = [] ∧
      chunk_text 300 50 ([] : List Char) ≠ [([] : List Char)] := by
  constructor
  · rfl
  · decide

/-- Every chunk list produced by the loop equals the corresponding slice list
of its spans. -/
theorem chunk_loop_eq_spans (cs ov : Nat) (text : List Char) :
    ∀ fuel start,
      chunk_loop cs ov text fuel start =
        (chunk_spans cs ov text fuel start).map
          (fun p => (text.drop p.1).take (p.2 - p.1)) := by
  intro fuel
  induction fuel with
  | zero => intro start; rfl
  | succ n ih =>
    intro start
    rw [chunk_loop, chunk_spans]
    by_cases hlt : start < text.length
    · rw [if_pos hlt, if_pos hlt]
      by_cases hend : text.length ≤ start + cs
      · rw [if_pos hend, if_pos hend]
        simp only [List.map_cons, List.map_nil]
        congr 1
        rw [List.take_of_length_le]
        rw [List.length_drop]
      · rw [if_neg hend, if_neg hend]
        simp only [List.map_cons]
        rw [ih]
    · rw [if_neg hlt, if_neg hlt]
      simp

end KB

namespace KB

/-- The first span produced from position `start` starts at `start`. -/
theorem chunk_spans_head_fst (cs ov : Nat) (text : List Char) :
    ∀ fuel start p, (chunk_spans cs ov text fuel start).head? = some p →
      p.1 = start := by
  intro fuel
  cases fuel with
  | zero => intro start p h; cases h
  | succ n =>
    intro start p h
    rw [chunk_spans] at h
    by_cases hlt : start < text.length
    · rw [if_pos hlt] at h
      by_cases hend : text.length ≤ start + cs
      · rw [if_pos hend] at h
        cases h
        rfl
      · rw [if_neg hend] at h
        cases h
        rfl
    · rw [if_neg hlt] at h
      cases h

/-- Chunk start positions strictly increase along the loop: the spans form a
`<`-chain in their first component. -/
theorem chunk_spans_chain (cs ov : Nat) (text : List Char)
    (hcs : ov + 50 ≤ cs) :
    ∀ fuel start,
      List.Chain' (fun p q : Nat × Nat => p.1 < q.1)
        (chunk_spans cs ov text fuel start) := by
  intro fuel
  induction fuel with
  | zero => intro start; exact List.chain'_nil
  | succ n ih =>
    intro start
    rw [chunk_spans]
    by_cases hlt : start < text.length
    · rw [if_pos hlt]
      by_cases hend : text.length ≤ start + cs
      · rw [if_pos hend]
        exact List.chain'_singleton _
      · rw [if_neg hend]
        rw [List.chain'_cons']
        refine ⟨?_, ih _⟩
        intro q hq
        have hq1 := chunk_spans_head_fst cs ov text n _ q hq
        have hb := find_break_point_bounds text (start + cs) (by omega)
        omega
    · rw [if_neg hlt]
      exact List.chain'_nil

/-- **C9 (amended).** For a chunker with `chunk_overlap + 50 ≤ chunk_size`
(which includes the default 300/50): a *nonempty* text of at most one window
yields exactly one chunk equal to the text itself (the empty text yields no
chunks, see `chunk_text_empty_counterexample`), and chunks are returned in
document order: each chunk is the slice of the text at its span, and the span
start positions strictly increase. -/
theorem chunk_text_single_and_ordered (cs ov : Nat) (text : List Char)
    (hcs : ov + 50 ≤ cs) :
    (text ≠ [] → text.length ≤ cs → chunk_text cs ov text = [text])
    ∧ (text = [] → chunk_text cs ov text = [])
    ∧ chunk_text cs ov text =
        (chunk_text_spans cs ov text).map
          (fun p => (text.drop p.1).take (p.2 - p.1))
    ∧ List.Chain' (fun p q : Nat × Nat => p.1 < q.1)
        (chunk_text_spans cs ov text) := by
  refine ⟨?_, ?_, ?_, ?_⟩
  · intro hne hle
    unfold chunk_text
    rw [if_neg hne, if_pos hle]
  · intro he
    unfold chunk_text
    rw [if_pos he]
  · unfold chunk_text chunk_text_spans
    by_cases he : text = []
    · rw [if_pos he, if_pos he]
      rfl
    · rw [if_neg he, if_neg he]
      by_cases hle : text.length ≤ cs
      · rw [if_pos hle, if_pos hle]
        simp only [List.map_cons, List.map_nil, List.drop_zero, Nat.sub_zero]
        rw [List.take_of_length_le (le_refl text.length)]
      · rw [if_neg hle, if_neg hle]
        exact chunk_loop_eq_spans cs ov text text.length 0
  · unfold chunk_text_spans
    by_cases he : text = []
    · rw [if_pos he]
      exact List.chain'_nil
    · rw [if_neg he]
      by_cases hle : text.length ≤ cs
      · rw [if_pos hle]
        exact List.chain'_singleton _
      · rw [if_neg hle]
        exact chunk_spans_chain cs ov text hcs text.length 0

/-- Concrete check of `chunk_text_single_and_ordered`: a 5-character text with
the default 300/50 configuration yields the single chunk equal to the text, and
the spans of the example text are strictly increasing. -/
theorem chunk_text_single_and_ordered_witness :
    (50 + 50 ≤ 300 ∧ ("Hello" : String).toList ≠ []) ∧
      chunk_text 300 50 (("Hello" : String).toList) = [("Hello" : String).toList] :=
  ⟨⟨by decide, by decide⟩,
   (chunk_text_single_and_ordered 300 50 (("Hello" : String).toList)
      (by decide)).1 (by decide) (by decide)⟩

end KB

namespace KB

/-! ## SnowflakeID (src/app/core/snowflake.py)

The generator's mutable state is `sequence` and `last_timestamp`
(initially `-1`); `machine_id` and `epoch` are fixed at construction.  The
wall clock is modelled as a function `clock : Nat → Int` giving the value
returned by the n-th call to `_current_timestamp`, so that arbitrary clock
behaviour — including regression — is quantified over.  The spin loops are
given explicit fuel and return `none` when the clock never catches up within
the fuel, modelling non-termination of the Python busy-wait. -/

structure SnowState where
  machine_id : Nat
  epoch : Int
  sequence : Nat
  last_timestamp : Int
  deriving DecidableEq, Repr

/-- The `while current_timestamp < self.last_timestamp` busy-wait on clock
regression: keeps sampling the clock until it is at least `last`. -/
def spin_not_backwards (clock : Nat → Int) (last : Int) :
    Nat → Nat → Int → Option (Int × Nat)
  | fuel, k, cur =>
    if cur < last then
      match fuel with
      | 0 => none
      | f + 1 => spin_not_backwards clock last f (k + 1) (clock k)
    else some (cur, k)

/-- `SnowflakeID._wait_next_millis(last_timestamp)` (lines 99-112): sample the
clock until it exceeds `last`. -/
def wait_next_millis (clock : Nat → Int) (last : Int) :
    Nat → Nat → Option (Int × Nat)
  | 0, _ => none
  | fuel + 1, k =>
    let ts := clock k
    if ts ≤ last then wait_next_millis clock last fuel (k + 1)
    else some (ts, k + 1)

/-- The 64-bit ID layout `(timestamp << 22) | (machine_id << 12) | sequence`
(lines 73-77).  The three fields occupy disjoint bit ranges — `machine_id <
2^10` shifted by 12 and `sequence < 2^12` — so the bitwise OR equals this
sum (also for a negative shifted timestamp, under Python's two's-complement
semantics for unbounded ints). -/
def snowflake_id (st : SnowState) (ts : Int) (seq : Nat) : Int :=
  (ts - st.epoch) * 2 ^ 22 + st.machine_id * 2 ^ 12 + seq

/-- `SnowflakeID.next_id()` (lines 42-79): spin while the clock is behind
`last_timestamp`; reset the sequence on a new millisecond, else increment it
modulo 2^12 (`& 4095`) and on wrap wait for the next millisecond; record the
timestamp used and emit the composed ID.  Returns the ID, the new state and
the next clock-sample index; `none` only when a busy-wait runs out of fuel. -/
def next_id (clock : Nat → Int) (fuel : Nat) (st : SnowState) (k : Nat) :
    Option (Int × SnowState × Nat) :=
  match spin_not_backwards clock st.last_timestamp fuel (k + 1) (clock k) with
  | none => none
  | some (cur, k1) =>
    if st.last_timestamp < cur then
      some (snowflake_id st cur 0,
        { st with sequence := 0, last_timestamp := cur }, k1)
    else
      let seq := (st.sequence + 1) % 4096
      if seq = 0 then
        match wait_next_millis clock st.last_timestamp fuel k1 with
        | none => none
        | some (cur2, k2) =>
          some (snowflake_id st cur2 seq,
            { st with sequence := seq, last_timestamp := cur2 }, k2)
      else
        some (snowflake_id st cur seq,
          { st with sequence := seq, last_timestamp := cur }, k1)

/-- A run of `n` successive `next_id` calls, threading state and clock index;
`some ids` when every call succeeds. -/
def next_ids (clock : Nat → Int) (fuel : Nat) :
    Nat → SnowState → Nat → Option (List Int)
  | 0, _, _ => some []
  | n + 1, st, k =>
    match next_id clock fuel st k with
    | none => none
    | some (id, st', k') => (next_ids clock fuel n st' k').map (id :: ·)

end KB

namespace KB

/-- The regression busy-wait only ever hands back a timestamp at least
`last_timestamp`. -/
theorem spin_not_backwards_ge (clock : Nat → Int) (last : Int) :
    ∀ fuel k cur res k', spin_not_backwards clock last fuel k cur = some (res, k') →
      last ≤ res := by
  intro fuel
  induction fuel with
  | zero =>
    intro k cur res k' h
    rw [spin_not_backwards] at h
    by_cases hc : cur < last
    · rw [if_pos hc] at h
      cases h
    · rw [if_neg hc] at h
      cases h
      omega
  | succ n ih =>
    intro k cur res k' h
    rw [spin_not_backwards] at h
    by_cases hc : cur < last
    · rw [if_pos hc] at h
      exact ih _ _ _ _ h
    · rw [if_neg hc] at h
      cases h
      omega

/-- `_wait_next_millis` only returns a timestamp strictly beyond
`last_timestamp`. -/
theorem wait_next_millis_gt (clock : Nat → Int) (last : Int) :
    ∀ fuel k res k', wait_next_millis clock last fuel k = some (res, k') →
      last < res := by
  intro fuel
  induction fuel with
  | zero => intro k res k' h; cases h
  | succ n ih =>
    intro k res k' h
    rw [wait_next_millis] at h
    by_cases hc : clock k ≤ last
    · rw [if_pos hc] at h
      exact ih _ _ _ h
    · rw [if_neg hc] at h
      cases h
      omega

/-- Shape of a successful `next_id` call: machine id and epoch are unchanged,
the recorded sequence fits in 12 bits, the recorded timestamp never goes
backwards, and the emitted ID is composed from the recorded fields. -/
theorem next_id_shape (clock : Nat → Int) (fuel : Nat) (st : SnowState)
    (k : Nat) (id : Int) (st' : SnowState) (k' : Nat)
    (h : next_id clock fuel st k = some (id, st', k')) :
    st'.machine_id = st.machine_id ∧ st'.epoch = st.epoch ∧
      st'.sequence < 4096 ∧ st.last_timestamp ≤ st'.last_timestamp ∧
      id = snowflake_id st st'.last_timestamp st'.sequence := by
  unfold next_id at h
  split at h
  · cases h
  · rename_i cur k1 hspin
    have hge := spin_not_backwards_ge clock st.last_timestamp fuel (k + 1) (clock k) cur k1 hspin
    split at h
    · cases h
      refine ⟨rfl, rfl, ?_, ?_, rfl⟩
      · show (0 : Nat) < 4096
        omega
      · show st.last_timestamp ≤ cur
        omega
    · simp only at h
      split at h
      · split at h
        · cases h
        · rename_i cur2 k2 hwait
          have hgt := wait_next_millis_gt clock st.last_timestamp fuel k1 cur2 k2 hwait
          cases h
          refine ⟨rfl, rfl, ?_, ?_, rfl⟩
          · show (st.sequence + 1) % 4096 < 4096
            omega
          · show st.last_timestamp ≤ cur2
            omega
      · cases h
        refine ⟨rfl, rfl, ?_, ?_, rfl⟩
        · show (st.sequence + 1) % 4096 < 4096
          exact Nat.mod_lt _ (by omega)
        · show st.last_timestamp ≤ cur
          omega

/-- A successful `next_id` call either advances the recorded millisecond, or
keeps it and bumps the sequence by one modulo 2^12 without wrapping. -/
theorem next_id_cases (clock : Nat → Int) (fuel : Nat) (st : SnowState)
    (k : Nat) (id : Int) (st' : SnowState) (k' : Nat)
    (h : next_id clock fuel st k = some (id, st', k')) :
    st.last_timestamp < st'.last_timestamp ∨
      (st'.last_timestamp = st.last_timestamp ∧
        st'.sequence = (st.sequence + 1) % 4096 ∧ st'.sequence ≠ 0) := by
  unfold next_id at h
  split at h
  · cases h
  · rename_i cur k1 hspin
    have hge := spin_not_backwards_ge clock st.last_timestamp fuel (k + 1) (clock k) cur k1 hspin
    split at h
    · rename_i hlt
      cases h
      left
      exact hlt
    · rename_i hlt
      simp only at h
      split at h
      · split at h
        · cases h
        · rename_i cur2 k2 hwait
          have hgt := wait_next_millis_gt clock st.last_timestamp fuel k1 cur2 k2 hwait
          cases h
          left
          exact hgt
      · rename_i hz
        cases h
        right
        refine ⟨?_, rfl, hz⟩
        show cur = st.last_timestamp
        omega

/-- Two successive successful `next_id` calls emit strictly increasing IDs. -/
theorem next_id_strict_mono (clock : Nat → Int) (fuel1 fuel2 : Nat)
    (st : SnowState) (k : Nat) (id1 id2 : Int) (st1 st2 : SnowState)
    (k1 k2 : Nat)
    (h1 : next_id clock fuel1 st k = some (id1, st1, k1))
    (h2 : next_id clock fuel2 st1 k1 = some (id2, st2, k2)) :
    id1 < id2 := by
  obtain ⟨hm1, he1, hseq1, _, hid1⟩ := next_id_shape clock fuel1 st k id1 st1 k1 h1
  obtain ⟨hm2, he2, hseq2, _, hid2⟩ := next_id_shape clock fuel2 st1 k1 id2 st2 k2 h2
  rcases next_id_cases clock fuel2 st1 k1 id2 st2 k2 h2 with hts | ⟨hts, hseq, hnz⟩
  · rw [hid1, hid2]
    unfold snowflake_id
    rw [he1, hm1]
    have hd : (1 : Int) ≤ st2.last_timestamp - st1.last_timestamp := by omega
    have hmul : (1 : Int) * 2 ^ 22 ≤ (st2.last_timestamp - st1.last_timestamp) * 2 ^ 22 :=
      mul_le_mul_of_nonneg_right hd (by norm_num)
    have hc1 : (st1.sequence : Int) < 4096 := by exact_mod_cast hseq1
    have hc2 : (0 : Int) ≤ (st2.sequence : Int) := by positivity
    nlinarith
  · rw [hid1, hid2]
    unfold snowflake_id
    rw [he1, hm1, hts]
    have hstep : st2.sequence = st1.sequence + 1 := by
      rcases Nat.lt_or_ge (st1.sequence + 1) 4096 with hlt | hge
      · rw [hseq, Nat.mod_eq_of_lt hlt]
      · have : st1.sequence + 1 = 4096 := by omega
        rw [hseq, this] at hnz
        simp at hnz
    have : (st1.sequence : Int) < (st2.sequence : Int) := by
      exact_mod_cast by omega
    linarith

/-- **C4.** For any wall-clock behaviour (including regression) and any run of
the generator, the IDs issued by successive successful `next_id` calls are
pairwise strictly increasing in issue order: if `a` was issued before `b` on
the same generator then `a < b`.  Within one millisecond the sequence field
strictly increases (`next_id_cases`), and on clock regression the generator
spins (`spin_not_backwards`) instead of emitting a non-monotonic ID. -/
theorem next_ids_monotonic (clock : Nat → Int) (fuel : Nat) :
    ∀ n st k ids, next_ids clock fuel n st k = some ids →
      ids.Pairwise (· < ·) := by
  have hchain : ∀ n st k ids, next_ids clock fuel n st k = some ids →
      ids.Chain' (· < ·) := by
    intro n
    induction n with
    | zero =>
      intro st k ids h
      cases h
      exact List.chain'_nil
    | succ m ih =>
      intro st k ids h
      rw [next_ids] at h
      split at h
      · cases h
      · rename_i id st' k' hcall
        cases hrest : next_ids clock fuel m st' k' with
        | none =>
          rw [hrest] at h
          cases h
        | some rest =>
          rw [hrest] at h
          simp only [Option.map] at h
          cases h
          rw [List.chain'_cons']
          refine ⟨?_, ih st' k' rest hrest⟩
          intro b hb
          cases m with
          | zero =>
            cases hrest
            cases hb
          | succ m' =>
            rw [next_ids] at hrest
            split at hrest
            · cases hrest
            · rename_i id2 st'' k'' hcall2
              cases hrest2 : next_ids clock fuel m' st'' k'' with
              | none =>
                rw [hrest2] at hrest
                cases hrest
              | some rest2 =>
                rw [hrest2] at hrest
                simp only [Option.map] at hrest
                cases hrest
                simp only [List.head?_cons, Option.mem_def, Option.some.injEq] at hb
                subst hb
                exact next_id_strict_mono clock fuel fuel st k id id2 st' st''
                  k' k'' hcall hcall2
  intro n st k ids h
  exact List.chain'_iff_pairwise.mp (hchain n st k ids h)

/-- Concrete check of `next_ids_monotonic`: three calls against a clock that
ticks by one per sample, from the freshly constructed state
(`sequence = 0`, `last_timestamp = -1`, epoch 0, machine 1), succeed and give
strictly increasing IDs. -/
theorem next_ids_monotonic_witness :
    next_ids (fun n => (n : Int)) 4 3 ⟨1, 0, 0, -1⟩ 0 =
      some [4096, 4194304 + 4096, 2 * 4194304 + 4096] ∧
    ([4096, 4194304 + 4096, 2 * 4194304 + 4096] : List Int).Pairwise (· < ·) :=
  ⟨by decide,
   next_ids_monotonic (fun n => (n : Int)) 4 3 ⟨1, 0, 0, -1⟩ 0 _ (by decide)⟩

end KB

namespace KB

/-! ## Rate limiting (src/app/core/auth.py)

`check_rate_limit` counts requests in a Redis sorted set
`rate_limit:{client_id}:{now // 60}` whose members are the strings `str(now)`
of request Unix seconds (score = that second).  The per-client state is the
family of those sorted sets, indexed by minute bucket; a member is represented
by the second it encodes. -/

/-- Sorted sets `rate_limit:{client}:{bucket}` for one client: minute bucket to
member list. -/
def RateState := Nat → List Nat

/-- `redis.zadd(rate_key, {str(now): now})`: inserts member `str(now)` with
score `now`; re-adding an existing member only overwrites its (identical)
score, so the set is unchanged. -/
def zadd_member (l : List Nat) (now : Nat) : List Nat :=
  if now ∈ l then l else l ++ [now]

/-- `redis.zremrangebyscore(rate_key, 0, window_start)` with
`window_start = now - 60`: removes members with score in `[0, window_start]`.
Scores are compared over ℤ as in Python, where `window_start` may be negative;
member scores are naturals, so the lower bound `0` is automatic. -/
def zrem_window (l : List Nat) (now : Nat) : List Nat :=
  l.filter (fun m => !((m : Int) ≤ (now : Int) - 60))

/-- `check_rate_limit(api_key, key_info)` (src/app/core/auth.py lines
146-179): zadd the request's second into the current minute bucket, drop
members older than the one-minute window, count, and allow iff
`request_count ≤ rate_limit`.  (The `expire(rate_key, 120)` call only bounds
Redis storage and does not affect counting.) -/
def check_rate_limit (rate_limit : Nat) (st : RateState) (now : Nat) :
    Bool × RateState :=
  let bucket := now / 60
  let l1 := zadd_member (st bucket) now
  let l2 := zrem_window l1 now
  let request_count := l2.length
  (decide (request_count ≤ rate_limit),
   fun b => if b = bucket then l2 else st b)

/-- Response of `rate_limit_middleware` for one request: either the request is
forwarded to the handler (a 2xx/4xx response), or a 429 JSON error carrying
`error.code` and the `X-RateLimit-Remaining` header value. -/
inductive MwResponse where
  | passed
  | limited (code : String) (remaining : String)
  deriving DecidableEq, BEq, Repr

/-- `rate_limit_middleware` (src/app/core/auth.py lines 227-310) for an
authenticated request: if `check_rate_limit` denies, answer 429 with
`error.code = "rate_limit_exceeded"` and header `X-RateLimit-Remaining: 0`;
otherwise forward to the handler. -/
def rate_limit_middleware (rate_limit : Nat) (st : RateState) (now : Nat) :
    MwResponse × RateState :=
  let r := check_rate_limit rate_limit st now
  if r.1 then (.passed, r.2)
  else (.limited "rate_limit_exceeded" "0", r.2)

/-- Serve a sequence of authenticated requests of one client, given by their
Unix-second timestamps, threading the rate-limit state. -/
def serve_requests (rate_limit : Nat) :
    RateState → List Nat → List MwResponse × RateState
  | st, [] => ([], st)
  | st, now :: rest =>
    let p := rate_limit_middleware rate_limit st now
    let q := serve_requests rate_limit p.2 rest
    (p.1 :: q.1, q.2)

/-- **C2 counterexample.** Eleven requests arriving in the *same second*
(second 5, all inside one minute window) are all granted with a limit of 10:
the sorted-set member `str(now)` is identical for all of them, so the set
never grows past one member and the count stays 1.  The claim's bound of at
most 10 non-429 responses in the window, and its promise that the 11th request
receives 429, both fail. -/
theorem rate_limit_same_second_counterexample :
    (serve_requests 10 (fun _ => []) (List.replicate 11 5)).1.count .passed = 11 ∧
      ¬ ((serve_requests 10 (fun _ => []) (List.replicate 11 5)).1.count
          MwResponse.passed ≤ 10) := by
  constructor
  · decide
  · decide

end KB

namespace KB

/-- Bucket membership in terms of bounds: `t / 60 = B` puts `t` in
`[60B, 60B + 59]`. -/
theorem bucket_bounds {t B : Nat} (h : t / 60 = B) :
    60 * B ≤ t ∧ t ≤ 60 * B + 59 := by
  have hmod := Nat.mod_lt t (show 0 < 60 by omega)
  have hdiv := Nat.div_add_mod t 60
  omega

/-- Unfolding equation for `check_rate_limit` with its local bindings
inlined. -/
theorem check_rate_limit_eq (rate_limit : Nat) (st : RateState) (now : Nat) :
    check_rate_limit rate_limit st now =
      (decide ((zrem_window (zadd_member (st (now / 60)) now) now).length ≤ rate_limit),
       fun b => if b = now / 60
         then zrem_window (zadd_member (st (now / 60)) now) now
         else st b) := rfl

/-- Unfolding equation for `rate_limit_middleware` in terms of
`check_rate_limit`. -/
theorem rate_limit_middleware_eq (rate_limit : Nat) (st : RateState) (now : Nat) :
    rate_limit_middleware rate_limit st now =
      (if (check_rate_limit rate_limit st now).1 then MwResponse.passed
       else .limited "rate_limit_exceeded" "0",
       (check_rate_limit rate_limit st now).2) := by
  unfold rate_limit_middleware
  by_cases h : (check_rate_limit rate_limit st now).1
  · rw [if_pos h, if_pos h]
  · rw [if_neg h, if_neg h]

/-- Generalized run of `serve_requests` over distinct same-bucket request
times, starting from a state whose bucket `B` already holds the distinct
same-bucket members `pre`: the i-th response is granted iff
`pre.length + i + 1 ≤ rate_limit`, and the bucket ends holding
`pre ++ times`. -/
theorem serve_requests_from (rate_limit B : Nat) :
    ∀ (times pre : List Nat),
      pre.Nodup → (∀ m ∈ pre, m / 60 = B) →
      times.Nodup → (∀ t ∈ times, t / 60 = B) → (∀ t ∈ times, t ∉ pre) →
      (serve_requests rate_limit (fun b => if b = B then pre else []) times).1 =
        (List.range times.length).map
          (fun i => if pre.length + i + 1 ≤ rate_limit then MwResponse.passed
                    else .limited "rate_limit_exceeded" "0")
      ∧ (serve_requests rate_limit (fun b => if b = B then pre else []) times).2 =
          (fun b => if b = B then pre ++ times else []) := by
  intro times
  induction times with
  | nil =>
    intro pre _ _ _ _ _
    constructor
    · rfl
    · funext b
      simp [serve_requests]
  | cons t rest ih =>
    intro pre hprend hpreb hnd htb hdisj
    have htB : t / 60 = B := htb t (by simp)
    have htpre : t ∉ pre := hdisj t (by simp)
    have hbt := bucket_bounds htB
    -- the zadd appends the fresh member
    have hzadd : zadd_member ((fun b => if b = B then pre else []) (t / 60)) t
        = pre ++ [t] := by
      rw [htB]
      unfold zadd_member
      simp [htpre]
    -- nothing in the bucket is older than the window
    have hzrem : zrem_window (pre ++ [t]) t = pre ++ [t] := by
      unfold zrem_window
      apply List.filter_eq_self.mpr
      intro m hm
      have hmB : m / 60 = B := by
        rcases List.mem_append.mp hm with hmp | hmt
        · exact hpreb m hmp
        · simp at hmt
          rw [hmt]
          exact htB
      have hbm := bucket_bounds hmB
      simp only [Bool.not_eq_eq_eq_not, Bool.not_true, decide_eq_false_iff_not]
      omega
    have hc1 : (check_rate_limit rate_limit
        (fun b => if b = B then pre else []) t).1 =
        decide (pre.length + 1 ≤ rate_limit) := by
      rw [check_rate_limit_eq]
      simp only [hzadd, hzrem]
      congr 1
      simp
    have hc2 : (check_rate_limit rate_limit
        (fun b => if b = B then pre else []) t).2 =
        (fun b => if b = B then pre ++ [t] else []) := by
      rw [check_rate_limit_eq]
      simp only [hzadd, hzrem]
      funext b
      rw [htB]
      by_cases hb : b = B
      · simp [hb]
      · simp [hb]
    have hstate : (rate_limit_middleware rate_limit
        (fun b => if b = B then pre else []) t).2 =
        (fun b => if b = B then pre ++ [t] else []) := by
      rw [rate_limit_middleware_eq]
      exact hc2
    have hresp : (rate_limit_middleware rate_limit
        (fun b => if b = B then pre else []) t).1 =
        (if pre.length + 0 + 1 ≤ rate_limit then MwResponse.passed
         else .limited "rate_limit_exceeded" "0") := by
      rw [rate_limit_middleware_eq]
      simp only [hc1]
      by_cases hle : pre.length + 1 ≤ rate_limit
      · simp [hle]
      · simp [hle]
    have hih := ih (pre ++ [t])
      (by
        rw [← List.concat_eq_append]
        exact List.Nodup.concat htpre hprend)
      (by
        intro m hm
        rcases List.mem_append.mp hm with hmp | hmt
        · exact hpreb m hmp
        · simp at hmt
          rw [hmt]
          exact htB)
      (List.Nodup.of_cons hnd)
      (by
        intro r hr
        exact htb r (by simp [hr]))
      (by
        intro r hr
        rw [List.mem_append]
        push_neg
        constructor
        · exact hdisj r (by simp [hr])
        · simp only [List.mem_singleton]
          intro hrt
          rw [hrt] at hr
          exact (List.nodup_cons.mp hnd).1 hr)
    constructor
    · show (rate_limit_middleware rate_limit
          (fun b => if b = B then pre else []) t).1 ::
        (serve_requests rate_limit
          (rate_limit_middleware rate_limit
            (fun b => if b = B then pre else []) t).2 rest).1 = _
      rw [hstate, hresp, hih.1]
      rw [List.length_cons, List.range_succ_eq_map]
      rw [List.map_cons, List.map_map]
      congr 1
      apply List.map_congr_left
      intro i _
      simp only [Function.comp]
      have harith : (pre ++ [t]).length + i + 1 = pre.length + (i + 1) + 1 := by
        simp
        omega
      rw [harith]
    · show (serve_requests rate_limit
          (rate_limit_middleware rate_limit
            (fun b => if b = B then pre else []) t).2 rest).2 = _
      rw [hstate, hih.2]
      funext b
      by_cases hb : b = B
      · subst hb
        simp
      · simp [hb]

end KB

namespace KB

/-- The number of granted responses among the first `n` positions with cut-off
`rate_limit` is `min n rate_limit`. -/
theorem count_granted_eq (rate_limit n : Nat) :
    ((List.range n).map
      (fun i => if i + 1 ≤ rate_limit then MwResponse.passed
                else .limited "rate_limit_exceeded" "0")).count .passed =
      min n rate_limit := by
  induction n with
  | zero => simp
  | succ m ih =>
    have hc1 : ([MwResponse.passed] : List MwResponse).count .passed = 1 := by
      decide
    have hc2 : ([MwResponse.limited "rate_limit_exceeded" "0"] :
        List MwResponse).count .passed = 0 := by decide
    rw [List.range_succ, List.map_append, List.count_append, ih]
    simp only [List.map_cons, List.map_nil]
    by_cases h : m + 1 ≤ rate_limit
    · rw [if_pos h, hc1]
      omega
    · rw [if_neg h, hc2]
      omega

/-- **C2 (amended).** The sorted-set member inserted for a request is keyed by
the request's Unix second, so requests sharing a second collapse into one
member (see `rate_limit_same_second_counterexample`).  For requests arriving
at pairwise *distinct* seconds within a single minute bucket, the law holds:
the i-th request is granted iff `i < requests_per_minute`, so at most
`requests_per_minute` requests of the window are granted (2xx/4xx) and every
later one — in particular the 11th under a limit of 10 — receives 429 with
`error.code = "rate_limit_exceeded"` and header `X-RateLimit-Remaining: 0`. -/
theorem rate_limit_distinct_seconds (rate_limit B : Nat) (times : List Nat)
    (hnd : times.Nodup) (hbucket : ∀ t ∈ times, t / 60 = B) :
    (serve_requests rate_limit (fun _ => []) times).1 =
      (List.range times.length).map
        (fun i => if i + 1 ≤ rate_limit then MwResponse.passed
                  else .limited "rate_limit_exceeded" "0")
    ∧ (serve_requests rate_limit (fun _ => []) times).1.count .passed ≤
        rate_limit := by
  have h0 : (fun _ : Nat => ([] : List Nat)) =
      (fun b => if b = B then ([] : List Nat) else []) := by
    funext b
    by_cases hb : b = B <;> simp [hb]
  have h := serve_requests_from rate_limit B times [] List.nodup_nil
    (by simp) hnd hbucket (by simp)
  simp only [List.length_nil, Nat.zero_add] at h
  constructor
  · rw [h0, h.1]
  · rw [h0, h.1, count_granted_eq]
    omega

/-- Concrete check of `rate_limit_distinct_seconds`: eleven requests at the
distinct seconds 0..10 (one minute bucket) under a limit of 10 — the first ten
pass, the eleventh is the 429 with code `rate_limit_exceeded` and remaining
`0`. -/
theorem rate_limit_distinct_seconds_witness :
    ((List.range 11).Nodup ∧ ∀ t ∈ List.range 11, t / 60 = 0) ∧
      ((serve_requests 10 (fun _ => []) (List.range 11)).1 =
          (List.range 11).map
            (fun i => if i + 1 ≤ 10 then MwResponse.passed
                      else .limited "rate_limit_exceeded" "0")
        ∧ (serve_requests 10 (fun _ => []) (List.range 11)).1.count .passed ≤ 10)
      ∧ (serve_requests 10 (fun _ => []) (List.range 11)).1.getLast? =
          some (.limited "rate_limit_exceeded" "0") :=
  ⟨⟨by decide, by decide⟩,
   by
     have h := rate_limit_distinct_seconds 10 0 (List.range 11) (by decide)
       (by decide)
     simpa using h,
   by decide⟩

end KB

namespace KB

/-! ## Worker and webhook notifier
(src/app/worker/job_worker.py, src/app/worker/notifier.py)

`JobWorker.process_job` is modelled as the sequence of repository and notifier
effects it performs, parameterized by the outcomes of the injected
collaborators: the stored job data, the JSON parse, the processor run, and the
webhook HTTP exchange.  Repository writes are modelled as succeeding (the
claim quantifies over the webhook outcome, not over storage failures). -/

/-- An observable effect of `process_job` on its collaborators. -/
inductive WorkerEvent where
  | storeResults (results : String)
  | updateStatus (status : String)
  | storeError (msg : String)
  | webhookPost (status : Nat)
  deriving DecidableEq, Repr

/-- One log line: `(is_error_level, message)`. -/
def LogLine := Bool × String

/-- Outcome of the webhook HTTP exchange inside `send_notification`'s `try`:
either a response with a status code was received (and its body parsed), or
one of the `aiohttp` client exceptions was raised. -/
inductive WebhookOutcome where
  | response (status : Nat) (body : String)
  | responseError
  | connectionError
  | payloadError
  | otherError
  deriving DecidableEq, Repr

/-- `DefaultWebhookNotifier.send_notification(data, job_id, trace_id)`
(src/app/worker/notifier.py lines 38-100): when the webhook is enabled and a
URL is configured, POST the results; a 2xx response is logged at info level,
any other status is logged at error level; every raised client error is caught
and logged at error level.  The function never propagates an exception and
never touches the repository. -/
def send_notification (enabled : Bool) (url : Option String)
    (outcome : WebhookOutcome) : List WorkerEvent × List LogLine :=
  if enabled ∧ url.isSome then
    match outcome with
    | .response status body =>
      ([.webhookPost status],
       if 200 ≤ status ∧ status < 300 then
         [(false, "Webhook notification sent successfully")]
       else
         [(true, "Failed to send webhook notification: " ++ toString status
            ++ " " ++ body)])
    | .responseError => ([], [(true, "Client Response Error")])
    | .connectionError => ([], [(true, "Connection Error")])
    | .payloadError => ([], [(true, "Payload Error")])
    | .otherError => ([], [(true, "An unexpected error occurred")])
  else
    ([], [(false, "Webhook not enabled or no webhook URL found")])

/-- `JobWorker.process_job(job_id, trace_id, owner)`
(src/app/worker/job_worker.py lines 68-144), as the list of effects produced:
on missing job data, unparseable data or a processor exception, the `except`
branch stores status `failed` and the error; on processor success it stores
the results, sets status `completed`, and only then invokes the notifier.
`γ` is the type of parsed job payloads, `β` the processor's result type
rendered as the stored results string. -/
def process_job {γ : Type} (job_data : Option String)
    (parse : String → Option γ) (processor : γ → Except String String)
    (enabled : Bool) (url : Option String) (outcome : WebhookOutcome) :
    List WorkerEvent × List LogLine :=
  match job_data with
  | none => ([.updateStatus "failed", .storeError "Job data not found"], [])
  | some raw =>
    match parse raw with
    | none => ([.updateStatus "failed", .storeError "Invalid job data"], [])
    | some payload =>
      match processor payload with
      | .error e => ([.updateStatus "failed", .storeError e], [])
      | .ok results =>
        let wn := send_notification enabled url outcome
        (.storeResults results :: .updateStatus "completed" :: wn.1, wn.2)

end KB

namespace KB

/-- **C5.** When the processor returns successfully, `process_job` stores the
results and sets status `completed` *before* invoking the webhook, and for
every webhook outcome — including a non-2xx response such as 500, which is
only logged at error level — the event trace is exactly
`storeResults; updateStatus completed; (webhook POST)`: no `failed` status, no
stored error, and `process_job` returns normally, so no broker retry of the
task is triggered. -/
theorem process_job_webhook_isolation {γ : Type} (raw : String)
    (parse : String → Option γ) (payload : γ)
    (processor : γ → Except String String) (results : String)
    (url : String) (outcome : WebhookOutcome)
    (hparse : parse raw = some payload)
    (hproc : processor payload = .ok results) :
    (process_job (some raw) parse processor true (some url) outcome).1 =
      WorkerEvent.storeResults results :: .updateStatus "completed" ::
        (send_notification true (some url) outcome).1
    ∧ (∀ s, WorkerEvent.updateStatus s ∈
        (send_notification true (some url) outcome).1 → False)
    ∧ (∀ e, WorkerEvent.storeError e ∈
        (send_notification true (some url) outcome).1 → False)
    ∧ (∀ status body, outcome = .response status body →
        (status < 200 ∨ 300 ≤ status) →
        (true, "Failed to send webhook notification: " ++ toString status
          ++ " " ++ body) ∈ (process_job (some raw) parse processor true
            (some url) outcome).2) := by
  have hsome : (some url).isSome = true := rfl
  refine ⟨?_, ?_, ?_, ?_⟩
  · simp only [process_job, hparse, hproc]
  · intro s hs
    unfold send_notification at hs
    rw [if_pos ⟨rfl, hsome⟩] at hs
    cases outcome with
    | response status body =>
      simp at hs
    | responseError => simp at hs
    | connectionError => simp at hs
    | payloadError => simp at hs
    | otherError => simp at hs
  · intro e he
    unfold send_notification at he
    rw [if_pos ⟨rfl, hsome⟩] at he
    cases outcome with
    | response status body =>
      simp at he
    | responseError => simp at he
    | connectionError => simp at he
    | payloadError => simp at he
    | otherError => simp at he
  · intro status body houtcome hbad
    subst houtcome
    simp only [process_job, hparse, hproc]
    show _ ∈ (send_notification true (some url) (.response status body)).2
    unfold send_notification
    rw [if_pos ⟨rfl, hsome⟩]
    have h2xx : ¬ (200 ≤ status ∧ status < 300) := by omega
    simp only [if_neg h2xx]
    simp

/-- Concrete check of `process_job_webhook_isolation`: a processor success with
a webhook answering 500 leaves the trace
`storeResults; updateStatus "completed"; webhookPost 500` and an error-level
log of the failed notification. -/
theorem process_job_webhook_isolation_witness :
    ((fun s => some s) "d" = some "d" ∧
      (fun _ : String => Except.ok (ε := String) "r") "d" = .ok "r") ∧
    ((process_job (some "d") (fun s => some s)
        (fun _ => Except.ok "r") true (some "http://cb") (.response 500 "oops")).1 =
      WorkerEvent.storeResults "r" :: .updateStatus "completed" ::
        (send_notification true (some "http://cb") (.response 500 "oops")).1
     ∧ (∀ s, WorkerEvent.updateStatus s ∈
          (send_notification true (some "http://cb") (.response 500 "oops")).1 → False)
     ∧ (∀ e, WorkerEvent.storeError e ∈
          (send_notification true (some "http://cb") (.response 500 "oops")).1 → False)
     ∧ (∀ status body, (WebhookOutcome.response 500 "oops" : WebhookOutcome) =
            .response status body →
          (status < 200 ∨ 300 ≤ status) →
          (true, "Failed to send webhook notification: " ++ toString status
            ++ " " ++ body) ∈ (process_job (some "d") (fun s => some s)
              (fun _ => Except.ok "r") true (some "http://cb")
              (.response 500 "oops")).2)) :=
  ⟨⟨rfl, rfl⟩,
   process_job_webhook_isolation "d" (fun s => some s) "d"
     (fun _ => Except.ok "r") "r" "http://cb" (.response 500 "oops") rfl rfl⟩

end KB

namespace KB

/-! ## OpenAIService.analyze_subjects (src/app/services/openai_service.py)

The LLM's reply content is modelled as an already-`json.loads`-decoded value
(`none` for a JSON decode failure).  The post-processing of lines 447-467 is
ported, including Python's `in` membership test and subscript semantics on the
decoded value, since `json.loads` need not return a dict. -/

/-- A JSON value as produced by `json.loads`. -/
inductive JValue where
  | jNull
  | jBool (b : Bool)
  | jNum (n : Int)
  | jStr (s : String)
  | jArr (xs : List JValue)
  | jObj (fields : List (String × JValue))
  deriving Repr

/-- Python `"sub" in s` for strings: contiguous substring test. -/
def pySubstr (needle hay : String) : Bool :=
  (List.range (hay.toList.length + 1)).any
    (fun i => needle.toList.isPrefixOf (hay.toList.drop i))

/-- Python `key in value` for a decoded JSON value: key lookup on a dict,
element equality on a list (a key can only equal string elements), substring
test on a string; `none` models the `TypeError` raised on other values. -/
def pyContains (v : JValue) (key : String) : Option Bool :=
  match v with
  | .jObj fields => some (fields.any (fun f => f.1 = key))
  | .jArr xs => some (xs.any (fun x => match x with
      | .jStr s => s = key
      | _ => false))
  | .jStr s => some (pySubstr key s)
  | _ => none

/-- Python `value[key]` with a string key: dict lookup (first matching field;
`json.loads` keeps keys unique), `none` models `KeyError`/`TypeError` on a
missing key or a non-dict value. -/
def pyGetItem (v : JValue) (key : String) : Option JValue :=
  match v with
  | .jObj fields => (fields.find? (fun f => f.1 = key)).map (fun f => f.2)
  | _ => none

/-- Python `value[key] = x` on a dict: overwrite the existing field in place
or append a new one; `none` models `TypeError` on a non-dict. -/
def pySetItem (v : JValue) (key : String) (x : JValue) : Option JValue :=
  match v with
  | .jObj fields =>
    some (.jObj (if fields.any (fun f => f.1 = key)
      then fields.map (fun f => if f.1 = key then (key, x) else f)
      else fields ++ [(key, x)]))
  | _ => none

/-- Is the value a JSON array (`isinstance(result["results"], list)`)? -/
def isJArr : JValue → Bool
  | .jArr _ => true
  | _ => false

/-- The subject lines submitted to the LLM:
`subjects_text = "\n".join([f'- "{subject}"' for subject in subjects])`
(src/app/services/openai_service.py line 410) — one line per input subject,
with no cap on their number. -/
def subjects_prompt (subjects : List String) : List String :=
  subjects.map (fun s => "- \"" ++ s ++ "\"")

/-- `if "results" not in result or not isinstance(result["results"], list):
result = {"results": []}` — `mem` is the already-computed membership test. -/
def replace_non_list (result : JValue) (mem : Bool) : Except String JValue :=
  if mem then
    match pyGetItem result "results" with
    | none => .error "TypeError: value is not subscriptable"
    | some inner =>
      if isJArr inner then .ok result
      else .ok (.jObj [("results", .jArr [])])
  else .ok (.jObj [("results", .jArr [])])

/-- `OpenAIService.analyze_subjects(subjects, min_confidence, job_id,
trace_id)` (src/app/services/openai_service.py lines 369-482), from the point
where the LLM response content is decoded: `json.loads` failure raises
`Invalid response format from OpenAI API`; then
`if "results" not in result or not isinstance(result["results"], list):
result = {"results": []}`, then `result["job_id"] = job_id`, and the value is
returned.  Raised errors are re-raised by the outer handler (none of them
contains "rate limit"); the cost-limit gate and key retrieval are assumed to
pass, and the LLM exchange itself is abstracted by `content`. -/
def analyze_subjects (job_id : String) (content : Option JValue) :
    Except String JValue :=
  match content with
  | none => .error "Invalid response format from OpenAI API"
  | some result =>
    match pyContains result "results" with
    | none => .error "TypeError: argument is not iterable"
    | some mem =>
      match replace_non_list result mem with
      | .error e => .error e
      | .ok r =>
        match pySetItem r "job_id" (.jStr job_id) with
        | none => .error "TypeError: value does not support item assignment"
        | some r2 => .ok r2

end KB

namespace KB

/-- `pyGetItem` on a JSON object is an association-list lookup. -/
theorem pyGetItem_obj (fields : List (String × JValue)) (key : String) :
    pyGetItem (.jObj fields) key =
      (fields.find? (fun f => f.1 = key)).map (fun f => f.2) := rfl

/-- After a Python dict assignment `d[k] = x`, looking up `k` finds `(k, x)`,
whether `k` was present (in-place overwrite) or not (append). -/
theorem find?_set_self (fields : List (String × JValue)) (k : String) (x : JValue) :
    ((if fields.any (fun f => f.1 = k)
      then fields.map (fun f => if f.1 = k then (k, x) else f)
      else fields ++ [(k, x)]).find? (fun f => f.1 = k)) = some (k, x) := by
  by_cases h : fields.any (fun f => f.1 = k)
  · rw [if_pos h]
    induction fields with
    | nil => simp at h
    | cons f rest ih =>
      by_cases hf : f.1 = k
      · simp [hf]
      · rw [List.any_cons] at h
        have h' : rest.any (fun f => f.1 = k) := by
          simp [hf] at h
          simpa using h
        rw [List.map_cons]
        rw [List.find?_cons_of_neg]
        · exact ih h'
        · simp [hf]
  · rw [if_neg h]
    induction fields with
    | nil => simp
    | cons f rest ih =>
      rw [List.any_cons] at h
      have hf : ¬ (f.1 = k) := by
        intro hc
        apply h
        simp [hc]
      have h' : ¬ rest.any (fun f => f.1 = k) := by
        intro hc
        apply h
        simp [hc]
      rw [List.cons_append, List.find?_cons_of_neg]
      · exact ih h'
      · simp [hf]

/-- A Python dict assignment `d[k] = x` leaves the lookup of every other key
unchanged. -/
theorem find?_set_other (fields : List (String × JValue)) (k k' : String)
    (x : JValue) (hkk : k' ≠ k) :
    ((if fields.any (fun f => f.1 = k)
      then fields.map (fun f => if f.1 = k then (k, x) else f)
      else fields ++ [(k, x)]).find? (fun f => f.1 = k')) =
      fields.find? (fun f => f.1 = k') := by
  by_cases h : fields.any (fun f => f.1 = k)
  · rw [if_pos h]
    clear h
    induction fields with
    | nil => simp
    | cons f rest ih =>
      by_cases hf : f.1 = k
      · rw [List.map_cons, if_pos hf]
        rw [List.find?_cons_of_neg _ (by simp [Ne.symm hkk]),
          List.find?_cons_of_neg _ (by simp [hf, Ne.symm hkk])]
        exact ih
      · rw [List.map_cons, if_neg hf]
        by_cases hf' : f.1 = k'
        · rw [List.find?_cons_of_pos _ (by simp [hf']),
            List.find?_cons_of_pos _ (by simp [hf'])]
        · rw [List.find?_cons_of_neg _ (by simp [hf']),
            List.find?_cons_of_neg _ (by simp [hf'])]
          exact ih
  · rw [if_neg h]
    rw [List.find?_append]
    have hone : ([(k, x)].find? (fun f => f.1 = k')) = none := by
      simp [Ne.symm hkk]
    rw [hone]
    cases fields.find? (fun f => f.1 = k') <;> rfl

/-- **C6 counterexample.** With 101 subjects, all 101 lines are submitted to
the LLM — neither the request model (`SubjectAnalysisRequest.subjects`, a bare
`List[str]`) nor `analyze_subjects` caps the list at 100 — and when the LLM
returns a `results` list whose item lacks the `{tag, cluster, subject}`
fields, that item is passed through unvalidated. -/
theorem analyze_subjects_counterexample :
    (subjects_prompt (List.replicate 101 "s")).length = 101 ∧
    ¬ ((subjects_prompt (List.replicate 101 "s")).length ≤ 100) ∧
    analyze_subjects "j"
        (some (.jObj [("results", .jArr [.jObj [("foo", .jNum 1)]])])) =
      .ok (.jObj [("results", .jArr [.jObj [("foo", .jNum 1)]]),
                  ("job_id", .jStr "j")]) := by
  refine ⟨?_, ?_, ?_⟩
  · simp [subjects_prompt]
  · simp [subjects_prompt]
  · rfl

/-- Successful replacement step: either the dict was replaced by
`{"results": []}`, or the original value is kept and its `results` key holds a
list. -/
theorem replace_non_list_ok (result : JValue) (mem : Bool) (r : JValue)
    (h : replace_non_list result mem = .ok r) :
    r = .jObj [("results", .jArr [])] ∨
      (r = result ∧ ∃ xs, pyGetItem result "results" = some (.jArr xs)) := by
  unfold replace_non_list at h
  by_cases hm : mem = true
  · rw [if_pos hm] at h
    split at h
    · cases h
    · rename_i inner hget
      by_cases harr : isJArr inner = true
      · rw [if_pos harr] at h
        cases h
        right
        refine ⟨rfl, ?_⟩
        cases inner with
        | jArr xs => exact ⟨xs, hget⟩
        | jNull => cases harr
        | jBool b => cases harr
        | jNum n => cases harr
        | jStr s => cases harr
        | jObj fs => cases harr
      · rw [if_neg harr] at h
        cases h
        left
        rfl
  · rw [if_neg hm] at h
    cases h
    left
    rfl

/-- **C6 (amended).** Every subject is submitted to the LLM — the prompt has
exactly one line per subject, with no cap — and whenever `analyze_subjects`
returns successfully, the returned value is a JSON object whose `results` key
holds a list (the LLM's own list if it supplied one, else the `{"results":
[]}` replacement; the items are not validated further) and whose `job_id` key
holds the given job id. -/
theorem analyze_subjects_shape (job_id : String) (content : Option JValue)
    (subjects : List String) :
    (subjects_prompt subjects).length = subjects.length
    ∧ ∀ v, analyze_subjects job_id content = .ok v →
        (∃ xs, pyGetItem v "results" = some (.jArr xs))
        ∧ pyGetItem v "job_id" = some (.jStr job_id) := by
  constructor
  · simp [subjects_prompt]
  · intro v hv
    unfold analyze_subjects at hv
    split at hv
    · cases hv
    · rename_i result
      split at hv
      · cases hv
      · rename_i mem hmem
        split at hv
        · cases hv
        · rename_i r hrep
          split at hv
          · cases hv
          · rename_i r2 hset
            cases hv
            rcases replace_non_list_ok _ mem r hrep with hr | ⟨hr, xs, hget⟩
            · subst hr
              have hr2 : v = .jObj [("results", .jArr []),
                  ("job_id", .jStr job_id)] := by
                unfold pySetItem at hset
                simp only [Option.some.injEq] at hset
                rw [← hset]
                rfl
              subst hr2
              exact ⟨⟨[], rfl⟩, rfl⟩
            · subst hr
              cases r with
              | jObj fields =>
                have hr2 : v = .jObj
                    (if fields.any (fun f => f.1 = "job_id")
                     then fields.map (fun f =>
                       if f.1 = "job_id" then ("job_id", .jStr job_id) else f)
                     else fields ++ [("job_id", .jStr job_id)]) := by
                  unfold pySetItem at hset
                  simp only [Option.some.injEq] at hset
                  exact hset.symm
                subst hr2
                constructor
                · refine ⟨xs, ?_⟩
                  rw [pyGetItem_obj]
                  rw [find?_set_other fields "job_id" "results"
                    (.jStr job_id) (by decide)]
                  rw [pyGetItem_obj] at hget
                  exact hget
                · rw [pyGetItem_obj]
                  rw [find?_set_self fields "job_id" (.jStr job_id)]
                  rfl
              | jNull => cases hget
              | jBool b => cases hget
              | jNum n => cases hget
              | jStr st => cases hget
              | jArr ys => cases hget

/-- Concrete check of `analyze_subjects_shape`: two subjects yield a
two-line prompt, and a well-formed LLM reply keeps its results list and gains
the job id. -/
theorem analyze_subjects_shape_witness :
    (subjects_prompt ["a", "b"]).length = 2 ∧
      ∀ v, analyze_subjects "j7"
          (some (.jObj [("results", .jArr [.jStr "x"])])) = .ok v →
        (∃ xs, pyGetItem v "results" = some (.jArr xs))
        ∧ pyGetItem v "job_id" = some (.jStr "j7") :=
  (analyze_subjects_shape "j7"
    (some (.jObj [("results", .jArr [.jStr "x"])])) ["a", "b"])

end KB

namespace KB

/-! ## Status and results endpoints (src/app/api/endpoints.py)

`get_job_status` and `get_job_results` read the per-job Redis keys
`job:{id}:status`, `job:{id}:client`, `job:{id}:results`, `job:{id}:error`.
HTTP errors are modelled as `Except (status code × detail)`; the steps after
the ownership check in `get_job_results` (JSON parse of the stored results,
entity normalization, job-type dispatch) happen only for the job's own tenant
and are abstracted into returning the stored results string. -/

/-- The authenticated context produced by `validate_api_key` for a valid,
unexpired key. -/
structure ApiKeyInfo where
  client_id : String
  permissions : List String
  deriving DecidableEq, Repr

/-- The Redis keys of one job. -/
structure JobKeys where
  statusKey : Option String
  clientKey : Option String
  resultsKey : Option String
  errorKey : Option String
  deriving DecidableEq, Repr

/-- Job id to its Redis keys. -/
def JobCache := String → JobKeys

/-- `requires_permission(permission, api_key)` (src/app/core/auth.py lines
204-223) for an already-validated key: 403 when the permission is missing. -/
def requires_permission (perm : String) (key : ApiKeyInfo) :
    Except (Nat × String) ApiKeyInfo :=
  if perm ∈ key.permissions then .ok key
  else .error (403, "This operation requires the '" ++ perm ++ "' permission")

/-- The body of a successful `GET /api/v1/status/{job_id}`. -/
structure StatusBody where
  job_id : String
  status : String
  results_url : Option String
  error : Option String
  deriving DecidableEq, Repr

/-- `get_job_status` (src/app/api/endpoints.py lines 90-157): permission
check, then 404 when `job:{id}:status` is absent, then 404 — identical to the
not-found error — when the stored client id differs from the caller's, then
the status body. -/
def get_job_status (cache : JobCache) (key : ApiKeyInfo) (job_id : String) :
    Except (Nat × String) StatusBody :=
  match requires_permission "status" key with
  | .error e => .error e
  | .ok key_info =>
    match (cache job_id).statusKey with
    | none => .error (404, "Job " ++ job_id ++ " not found")
    | some s =>
      if (cache job_id).clientKey ≠ some key_info.client_id then
        .error (404, "Job " ++ job_id ++ " not found")
      else
        .ok { job_id := job_id
              status := s
              results_url := if s = "completed"
                then some ("/api/v1/results/" ++ job_id) else none
              error := if s = "failed" then (cache job_id).errorKey else none }

/-- `get_job_results` (src/app/api/endpoints.py lines 159-270): permission
check, 404 on missing job, the same 404 on a client-id mismatch, 404 when the
status is not `completed` or the results are missing, else the stored
results. -/
def get_job_results (cache : JobCache) (key : ApiKeyInfo) (job_id : String) :
    Except (Nat × String) String :=
  match requires_permission "results" key with
  | .error e => .error e
  | .ok key_info =>
    match (cache job_id).statusKey with
    | none => .error (404, "Job " ++ job_id ++ " not found")
    | some s =>
      if (cache job_id).clientKey ≠ some key_info.client_id then
        .error (404, "Job " ++ job_id ++ " not found")
      else if s ≠ "completed" then
        .error (404, "Results for job " ++ job_id ++ " not available yet")
      else
        match (cache job_id).resultsKey with
        | none => .error (404, "Results for job " ++ job_id ++ " not found")
        | some results => .ok results

/-- **C7 counterexample.** A valid key of client `"bob"` holding both
permissions, querying a completed job owned by `"alice"`, receives 404 on both
endpoints — not the 401/403 the claim requires. -/
theorem cross_tenant_counterexample :
    get_job_status
        (fun _ => ⟨some "completed", some "alice", some "r", none⟩)
        ⟨"bob", ["status", "results"]⟩ "1" =
      .error (404, "Job 1 not found")
    ∧ get_job_results
        (fun _ => ⟨some "completed", some "alice", some "r", none⟩)
        ⟨"bob", ["status", "results"]⟩ "1" =
      .error (404, "Job 1 not found")
    ∧ (404 ≠ 401 ∧ 404 ≠ 403) := by
  refine ⟨rfl, rfl, by decide⟩

/-- **C7 (amended).** Cross-tenant access to `GET /api/v1/status/{job_id}` or
`GET /api/v1/results/{job_id}` — a valid key holding the needed permission
whose client id differs from the job's stored client id — is rejected with
404 "Job not found", deliberately indistinguishable from a nonexistent job
(the 401/403 of the claim arise only for invalid/expired keys or missing
permissions, before the ownership check). -/
theorem cross_tenant_is_masked_404 (cache : JobCache) (key : ApiKeyInfo)
    (job_id : String) (s : String)
    (hstatus : (cache job_id).statusKey = some s)
    (hmismatch : (cache job_id).clientKey ≠ some key.client_id) :
    ("status" ∈ key.permissions →
      get_job_status cache key job_id =
        .error (404, "Job " ++ job_id ++ " not found"))
    ∧ ("results" ∈ key.permissions →
      get_job_results cache key job_id =
        .error (404, "Job " ++ job_id ++ " not found")) := by
  constructor
  · intro hperm
    unfold get_job_status requires_permission
    rw [if_pos hperm]
    simp only [hstatus]
    rw [if_pos hmismatch]
  · intro hperm
    unfold get_job_results requires_permission
    rw [if_pos hperm]
    simp only [hstatus]
    rw [if_pos hmismatch]

/-- Concrete check of `cross_tenant_is_masked_404`: client `"bob"` with both
permissions against a pending job of `"alice"`. -/
theorem cross_tenant_is_masked_404_witness :
    ((fun _ : String => (⟨some "pending", some "alice", none, none⟩ : JobKeys))
        "9").statusKey = some "pending" ∧
    (("status" ∈ ["status", "results"] →
      get_job_status (fun _ => ⟨some "pending", some "alice", none, none⟩)
          ⟨"bob", ["status", "results"]⟩ "9" =
        .error (404, "Job 9 not found"))
     ∧ ("results" ∈ ["status", "results"] →
      get_job_results (fun _ => ⟨some "pending", some "alice", none, none⟩)
          ⟨"bob", ["status", "results"]⟩ "9" =
        .error (404, "Job 9 not found"))) :=
  ⟨rfl,
   cross_tenant_is_masked_404
     (fun _ => ⟨some "pending", some "alice", none, none⟩)
     ⟨"bob", ["status", "results"]⟩ "9" "pending" rfl (by decide)⟩

end KB

namespace KB

/-! ## HybridCache.get (src/app/core/hybrid_cache.py)

Each tier is a map from key to `(value, remaining TTL in seconds)`.  The
`asyncio.create_task(redis.setex(...))` repopulation is modelled as the
returned Redis state (the task mutates only that key). -/

/-- A cache tier: key to stored value and remaining TTL. -/
def Tier := String → Option (String × Int)

/-- `HybridCache.get(key)` (src/app/core/hybrid_cache.py lines 56-84):
read Redis; on a miss read PostgreSQL; on a PostgreSQL-only hit, repopulate
Redis via `setex(key, ttl, value)` where the code sets `ttl = 3600` — the
constant 1-hour default, regardless of the PostgreSQL entry's own TTL, despite
the comment "Get TTL from PostgreSQL or use default".  Returns the value (or
`none`) and the Redis tier after the repopulation task. -/
def hybrid_get (redis pg : Tier) (key : String) : Option String × Tier :=
  match redis key with
  | some (v, _) => (some v, redis)
  | none =>
    match pg key with
    | none => (none, redis)
    | some (v, _pgTtl) =>
      let ttl : Int := 3600
      (some v, fun k => if k = key then some (v, ttl) else redis k)

/-- **C8.** Behaviour of `hybrid_get` at the failing input: the key `"k"` is
absent from Redis and present in PostgreSQL with only 10 seconds of TTL left,
yet the Redis repopulation is written with the fixed TTL 3600 — not a TTL
derived from the durable tier's 10 — so the fast tier may serve the value for
up to an hour after the durable entry expires.  The read-through itself
behaves as claimed: the PostgreSQL value is returned, a Redis hit short-cuts,
and a double miss yields `none`. -/
theorem hybrid_get_fixed_ttl :
    (hybrid_get (fun _ => none)
        (fun k => if k = "k" then some ("v", 10) else none) "k").1 = some "v"
    ∧ (hybrid_get (fun _ => none)
        (fun k => if k = "k" then some ("v", 10) else none) "k").2 "k" =
      some ("v", 3600)
    ∧ (3600 : Int) ≠ 10
    ∧ (hybrid_get (fun k => if k = "k" then some ("w", 7) else none)
        (fun k => if k = "k" then some ("v", 10) else none) "k").1 = some "w"
    ∧ (hybrid_get (fun _ => none) (fun _ => none) "k").1 = none := by
  refine ⟨rfl, rfl, by decide, rfl, rfl⟩

end KB
